import Mathlib

/-!
Shallow embedding of the bees-algorithm rocket/module allocation optimizer
(`src/model.py` and `src/algorithm.py`).

Modelling conventions:
* numpy integer arrays become total functions `Nat → Nat` / `Nat → Nat → Nat`;
  all arrays produced by the code are zero outside the index ranges given by
  the `Settings`.
* The module-wide random source (`random`, `np.random`) becomes an explicit
  stream of natural-number draws (`List Nat`), threaded through every
  function; each primitive consumes draws from the front.  A draw `d` used to
  sample uniformly from a set of size `k` is interpreted as `d % k`, so every
  outcome in the support of the Python distribution is realised by some
  stream, and every stream realises an outcome in the support.
* Python exceptions become `Except String` (the carried message is the
  Python exception message); functions also return the remaining stream, the
  observable trace of how much random work was done before a raise.
* The unbounded `while` repair loop of `generate_random_modules_allocation`
  is embedded with explicit fuel `repairFuel`; the theorem
  `repairGo_reaches_done` proves this fuel always suffices on the inputs the
  code reaches it with, so the embedding agrees with the unbounded loop.
-/

namespace RocketBees

/-- Pop the next draw off the random stream (`0` when the stream is empty;
universally quantified theorems range over all streams). -/
def next : List Nat → Nat × List Nat
  | [] => (0, [])
  | d :: rest => (d, rest)

/-- Structure `Settings` from `src/model.py`: the immutable problem configuration.
Cost tables are modelled with natural-number entries (the spec requires
nonnegative costs). -/
structure Settings where
  num_rocket_types : Nat
  num_module_types : Nat
  num_rockets : Nat
  rocket_capacity : Nat
  additional_fuel_costs : Nat → Nat → Nat
  fuel_costs : Nat → Nat
  module_amounts : Nat → Nat

/-- Structure `Solution` from `src/model.py`. -/
structure Solution where
  rocket_type_allocation : Nat → Nat
  module_allocation : Nat → Nat → Nat

/-- Row sum `allocation.sum(axis=1)` at row `r`: total modules loaded on rocket `r`. -/
def rowSum (S : Settings) (A : Nat → Nat → Nat) (r : Nat) : Nat :=
  ∑ j in Finset.range S.num_module_types, A r j

/-- Column sum `allocation.sum(axis=0)` at column `j`: total modules of type `j`. -/
def colSum (S : Settings) (A : Nat → Nat → Nat) (j : Nat) : Nat :=
  ∑ r in Finset.range S.num_rockets, A r j

/-- Validator `is_valid_capacity` (`src/model.py`):
`np.all(solution.module_allocation.sum(axis=1) <= settings.rocket_capacity)`. -/
def is_valid_capacity (sol : Solution) (S : Settings) : Bool :=
  (List.range S.num_rockets).all fun r =>
    decide (rowSum S sol.module_allocation r ≤ S.rocket_capacity)

/-- Validator `is_valid_module_total` (`src/model.py`):
`np.all(solution.module_allocation.sum(axis=0) == settings.module_amounts)`. -/
def is_valid_module_total (sol : Solution) (S : Settings) : Bool :=
  (List.range S.num_module_types).all fun j =>
    decide (colSum S sol.module_allocation j = S.module_amounts j)

/-- Cost evaluator `calculate_cost` (`src/model.py`): module-dependent additional fuel cost
plus per-rocket base fuel cost. -/
def calculate_cost (sol : Solution) (S : Settings) : Nat :=
  (∑ r in Finset.range S.num_rockets, ∑ j in Finset.range S.num_module_types,
      sol.module_allocation r j *
        S.additional_fuel_costs (sol.rocket_type_allocation r) j)
    + ∑ r in Finset.range S.num_rockets, S.fuel_costs (sol.rocket_type_allocation r)

/-- Take `k` draws from the stream (in order). -/
def takeDraws : Nat → List Nat → List Nat × List Nat
  | 0, st => ([], st)
  | k + 1, st =>
    let (d, st') := next st
    let (ds, st'') := takeDraws k st'
    (d :: ds, st'')

/-- Function `generate_random_rockets_type_allocation` (`src/model.py`):
`np.random.randint(low=0, high=num_rocket_types, size=num_rockets)`.
`np.random.randint` raises `ValueError` when `high = 0` (`low >= high`). -/
def generate_random_rockets_type_allocation (S : Settings) (st : List Nat) :
    Except String (Nat → Nat) × List Nat :=
  if S.num_rocket_types = 0 then (.error "low >= high", st)
  else
    let (ds, st') := takeDraws S.num_rockets st
    (.ok (fun r => ds.getD r 0 % S.num_rocket_types), st')

/-- Model of `np.random.multinomial amount (ones n / n)`: throw `amount` balls
independently and uniformly into `n` bins; ball `i` lands in bin `dᵢ % n`. -/
def multinomial (amount n : Nat) (st : List Nat) : (Nat → Nat) × List Nat :=
  match amount with
  | 0 => (fun _ => 0, st)
  | a + 1 =>
    let (d, st') := next st
    let (f, st'') := multinomial a n st'
    (fun r => (if d % n = r then 1 else 0) + f r, st'')

/-- The `for module_type, amount in enumerate(module_amounts)` loop of
`generate_random_modules_allocation`: fill columns `0, …, k-1` of the
allocation by independent multinomial draws; all other entries stay `0`. -/
def genColumns (S : Settings) : Nat → List Nat → (Nat → Nat → Nat) × List Nat
  | 0, st => (fun _ _ => 0, st)
  | k + 1, st =>
    let (A, st') := genColumns S k st
    let (col, st'') := multinomial (S.module_amounts k) S.num_rockets st'
    (fun r j => if j = k then col r else A r j, st'')

/-- First index attaining the maximum of `g` on `{0, …, i}` (`np.argmax`). -/
def argmaxAux (g : Nat → Nat) : Nat → Nat
  | 0 => 0
  | i + 1 => if g (argmaxAux g i) < g (i + 1) then i + 1 else argmaxAux g i

/-- Model of `np.argmax` over indices `0, …, n-1`. -/
def argmaxIdx (g : Nat → Nat) (n : Nat) : Nat := argmaxAux g (n - 1)

/-- First index attaining the minimum of `g` on `{0, …, i}` (`np.argmin`). -/
def argminAux (g : Nat → Nat) : Nat → Nat
  | 0 => 0
  | i + 1 => if g (i + 1) < g (argminAux g i) then i + 1 else argminAux g i

/-- Model of `np.argmin` over indices `0, …, n-1`. -/
def argminIdx (g : Nat → Nat) (n : Nat) : Nat := argminAux g (n - 1)

/-- Write `v` at entry `(r, j)` of the matrix `A`. -/
def updAt2 (A : Nat → Nat → Nat) (r j v : Nat) : Nat → Nat → Nat :=
  fun r' j' => if r' = r ∧ j' = j then v else A r' j'

/-- The guard of the capacity-repair loop:
`np.any(allocation.sum(axis=1) > settings.rocket_capacity)`. -/
def overloadedExists (S : Settings) (A : Nat → Nat → Nat) : Bool :=
  (List.range S.num_rockets).any fun r =>
    decide (S.rocket_capacity < rowSum S A r)

/-- The two-statement numpy transfer
`allocation[src, j] -= t; allocation[dst, j] += t`, executed in order (so a
transfer from a rocket to itself is a net no-op). -/
def transfer (A : Nat → Nat → Nat) (src dst j t : Nat) : Nat → Nat → Nat :=
  let A1 := updAt2 A src j (A src j - t)
  updAt2 A1 dst j (A1 dst j + t)

/-- One iteration of the capacity-repair `while` loop of
`generate_random_modules_allocation` (`src/model.py`, lines 128-144). -/
def repairStep (S : Settings) (A : Nat → Nat → Nat) : Nat → Nat → Nat :=
  let counts := fun r => rowSum S A r
  let mx := argmaxIdx counts S.num_rockets
  let mn := argminIdx counts S.num_rockets
  let j := argmaxIdx (fun j => A mx j) S.num_module_types
  let t := min (A mx j) (counts mx - S.rocket_capacity)
  transfer A mx mn j t

/-- The capacity-repair `while` loop, with explicit fuel.
`repairGo_reaches_done` below proves that fuel `repairFuel S` always
suffices on the (feasible) inputs the code runs the loop on, so with that
fuel this definition coincides with the unbounded Python loop. -/
def repairGo (S : Settings) : Nat → (Nat → Nat → Nat) → Nat → Nat → Nat
  | 0, A => A
  | fuel + 1, A =>
    if overloadedExists S A then repairGo S fuel (repairStep S A) else A

/-- Fuel sufficient for the repair loop: `numRockets * (numModuleTypes + 2)`,
an `O(numRockets * numModuleTypes)` bound. -/
def repairFuel (S : Settings) : Nat := S.num_rockets * (S.num_module_types + 2)

/-- Function `generate_random_modules_allocation` (`src/model.py`): feasibility check,
multinomial column draws, then the capacity-repair loop. -/
def generate_random_modules_allocation (S : Settings) (st : List Nat) :
    Except String (Nat → Nat → Nat) × List Nat :=
  if S.num_rockets * S.rocket_capacity <
      ∑ j in Finset.range S.num_module_types, S.module_amounts j then
    (.error "Not enough capacity to carry all modules.", st)
  else
    let (A0, st') := genColumns S S.num_module_types st
    (.ok (repairGo S (repairFuel S) A0), st')

/-- Function `generate_random_solution` (`src/model.py`).  Python evaluates the
arguments of `Solution(...)` left to right: the rocket-type allocation is
generated first, then the module allocation (whose first statement is the
feasibility check). -/
def generate_random_solution (S : Settings) (st : List Nat) :
    Except String Solution × List Nat :=
  match generate_random_rockets_type_allocation S st with
  | (.error e, st') => (.error e, st')
  | (.ok rta, st') =>
    match generate_random_modules_allocation S st' with
    | (.error e, st'') => (.error e, st'')
    | (.ok A, st'') =>
      let sol : Solution := ⟨rta, A⟩
      if is_valid_capacity sol S && is_valid_module_total sol S then
        (.ok sol, st'')
      else (.error "Solution is not valid.", st'')

/-! ### `src/algorithm.py` -/

/-- The scalar parameters stored by `BeesSolver.__init__` (`src/algorithm.py`).
The `Settings` instance is passed separately to each operation. -/
structure BeesCfg where
  population_size : Nat
  modules_mutations : Nat
  rockets_type_mutations : Nat
  elite_sites : Nat
  normal_sites : Nat
  elite_site_size : Nat
  normal_site_size : Nat

/-- Constructor `BeesSolver.__init__`: the constructor only stores its arguments and sets
`self.population = []`; its body contains no check and no `raise`. -/
def beesSolverInit (population_size modules_mutations rockets_type_mutations
    elite_sites normal_sites elite_site_size normal_site_size : Nat) :
    Except String (BeesCfg × List Solution) :=
  .ok ({ population_size := population_size
         modules_mutations := modules_mutations
         rockets_type_mutations := rockets_type_mutations
         elite_sites := elite_sites
         normal_sites := normal_sites
         elite_site_size := elite_site_size
         normal_site_size := normal_site_size }, [])

/-- Model of `random.randrange(n)`: uniform on `[0, n)`; raises `ValueError` when
`n = 0`, without consuming randomness. -/
def randrange (n : Nat) (st : List Nat) : Except String Nat × List Nat :=
  if n = 0 then (.error "empty range for randrange", st)
  else
    let (d, st') := next st
    (.ok (d % n), st')

/-- Model of `random.randint(1, m)`: uniform on `[1, m]`; raises `ValueError` when
`m < 1`. -/
def randintFromOne (m : Nat) (st : List Nat) : Except String Nat × List Nat :=
  if m = 0 then (.error "empty range for randint", st)
  else
    let (d, st') := next st
    (.ok (1 + d % m), st')

/-- Model of `random.choice(l)`: uniform element of `l`; raises `IndexError` on an
empty sequence, without consuming randomness. -/
def choice (l : List Nat) (st : List Nat) : Except String Nat × List Nat :=
  if l.isEmpty then (.error "Cannot choose from an empty sequence", st)
  else
    let (d, st') := next st
    (.ok (l.getD (d % l.length) 0), st')

/-- Method `BeesSolver.__mutate_rockets_type_allocation`: overwrite the type of a
uniformly random rocket with a uniformly random type. -/
def mutate_rockets_type_allocation (S : Settings) (sol : Solution)
    (st : List Nat) : Except String Solution × List Nat :=
  match randrange S.num_rockets st with
  | (.error e, st1) => (.error e, st1)
  | (.ok rocket_index, st1) =>
    match randrange S.num_rocket_types st1 with
    | (.error e, st2) => (.error e, st2)
    | (.ok new_rocket_type, st2) =>
      (.ok ⟨fun i => if i = rocket_index then new_rocket_type
                     else sol.rocket_type_allocation i,
            sol.module_allocation⟩, st2)

/-- Eligible destination rockets in `__mutate_modules_allocation`:
`np.argwhere(rocket_capacities > 0).flatten()` (ascending indices). -/
def destCandidates (S : Settings) (sol : Solution) : List Nat :=
  (List.range S.num_rockets).filter fun r =>
    decide (0 < S.rocket_capacity - rowSum S sol.module_allocation r)

/-- Eligible source rockets for module type `mt`:
`np.argwhere(module_allocation[:, mt] > 0).flatten()`. -/
def srcCandidates (S : Settings) (sol : Solution) (mt : Nat) : List Nat :=
  (List.range S.num_rockets).filter fun r =>
    decide (0 < sol.module_allocation r mt)

/-- Method `BeesSolver.__mutate_modules_allocation`.  The result is `(err?, sol',
st')` where `sol'` is the state of the (in Python, in-place mutated)
solution when the call returns or raises: the two writes to
`module_allocation` are the last two statements of the Python body, so every
error path returns the input solution untouched. -/
def mutate_modules_allocation (S : Settings) (sol : Solution) (st : List Nat) :
    Option String × Solution × List Nat :=
  let rocket_capacities := fun r =>
    S.rocket_capacity - rowSum S sol.module_allocation r
  match randrange S.num_module_types st with
  | (.error e, st1) => (some e, sol, st1)
  | (.ok module_type_index, st1) =>
    match choice (destCandidates S sol) st1 with
    | (.error e, st2) => (some e, sol, st2)
    | (.ok to_rocket_index, st2) =>
      match choice (srcCandidates S sol module_type_index) st2 with
      | (.error e, st3) => (some e, sol, st3)
      | (.ok from_rocket_index, st3) =>
        let max_module_amount :=
          min (sol.module_allocation from_rocket_index module_type_index)
            (rocket_capacities to_rocket_index)
        match randintFromOne max_module_amount st3 with
        | (.error e, st4) => (some e, sol, st4)
        | (.ok module_amount, st4) =>
          (none, ⟨sol.rocket_type_allocation,
                  transfer sol.module_allocation from_rocket_index
                    to_rocket_index module_type_index module_amount⟩, st4)

/-- The first `for` loop of `BeesSolver.__mutate_solution`: apply `k` module
mutations in sequence (an exception aborts the whole pass). -/
def applyModuleMutations (S : Settings) :
    Nat → Solution → List Nat → Except String Solution × List Nat
  | 0, sol, st => (.ok sol, st)
  | k + 1, sol, st =>
    match mutate_modules_allocation S sol st with
    | (some e, _, st') => (.error e, st')
    | (none, sol', st') => applyModuleMutations S k sol' st'

/-- The second `for` loop of `BeesSolver.__mutate_solution`: apply `k`
rocket-type mutations in sequence. -/
def applyTypeMutations (S : Settings) :
    Nat → Solution → List Nat → Except String Solution × List Nat
  | 0, sol, st => (.ok sol, st)
  | k + 1, sol, st =>
    match mutate_rockets_type_allocation S sol st with
    | (.error e, st') => (.error e, st')
    | (.ok sol', st') => applyTypeMutations S k sol' st'

/-- Method `BeesSolver.__mutate_solution`: a mutation pass, `modules_mutations`
module transfers then `rockets_type_mutations` type overwrites. -/
def mutate_solution (cfg : BeesCfg) (S : Settings) (sol : Solution)
    (st : List Nat) : Except String Solution × List Nat :=
  match applyModuleMutations S cfg.modules_mutations sol st with
  | (.error e, st') => (.error e, st')
  | (.ok sol', st') => applyTypeMutations S cfg.rockets_type_mutations sol' st'

/-- Cost order used by `sorted(..., key=lambda sol: calculate_cost(...))` and
`population.sort(...)`. -/
def costLE (S : Settings) : Solution → Solution → Prop :=
  fun a b => calculate_cost a S ≤ calculate_cost b S

instance (S : Settings) : DecidableRel (costLE S) :=
  fun a b => Nat.decLe (calculate_cost a S) (calculate_cost b S)

instance (S : Settings) : IsTotal Solution (costLE S) :=
  ⟨fun a b => Nat.le_total (calculate_cost a S) (calculate_cost b S)⟩

instance (S : Settings) : IsTrans Solution (costLE S) :=
  ⟨fun _ _ _ => Nat.le_trans⟩

/-- The list comprehension plus mutation loop of
`BeesSolver.__find_best_neighbour`: `k` deep clones of `sol`, each mutated
by one pass, in order. -/
def mutateClones (cfg : BeesCfg) (S : Settings) :
    Nat → Solution → List Nat → Except String (List Solution) × List Nat
  | 0, _, st => (.ok [], st)
  | k + 1, sol, st =>
    match mutate_solution cfg S sol st with
    | (.error e, st') => (.error e, st')
    | (.ok n1, st') =>
      match mutateClones cfg S k sol st' with
      | (.error e, st'') => (.error e, st'')
      | (.ok ns, st'') => (.ok (n1 :: ns), st'')

/-- Method `BeesSolver.__find_best_neighbour`: mutate `k` clones, append the
original, sort ascending by cost (Python `sorted` is stable, as is
`List.insertionSort`), return the first element. -/
def find_best_neighbour (cfg : BeesCfg) (S : Settings) (sol : Solution)
    (neighbours_count : Nat) (st : List Nat) :
    Except String Solution × List Nat :=
  match mutateClones cfg S neighbours_count sol st with
  | (.error e, st') => (.error e, st')
  | (.ok ns, st') =>
    match List.insertionSort (costLE S) (ns ++ [sol]) with
    | [] => (.error "list index out of range", st')
    | best :: _ => (.ok best, st')

/-- One of the two site-exploitation `for` loops of
`BeesSolver.simulate_population`: for `count` indices starting at `i`,
replace `population[i]` by `__find_best_neighbour(population[i], size)`.
Reading a missing index is Python's `IndexError`. -/
def exploitSites (cfg : BeesCfg) (S : Settings) (size : Nat) :
    Nat → Nat → List Solution → List Nat →
    Except String (List Solution) × List Nat
  | _, 0, pop, st => (.ok pop, st)
  | i, count + 1, pop, st =>
    match pop[i]? with
    | none => (.error "list index out of range", st)
    | some s =>
      match find_best_neighbour cfg S s size st with
      | (.error e, st') => (.error e, st')
      | (.ok s', st') => exploitSites cfg S size (i + 1) count (pop.set i s') st'

/-- The third `for` loop of `BeesSolver.simulate_population`: replace
`count` slots starting at index `i` with fresh random solutions. -/
def regenScoutsGo (S : Settings) :
    Nat → Nat → List Solution → List Nat →
    Except String (List Solution) × List Nat
  | _, 0, pop, st => (.ok pop, st)
  | i, count + 1, pop, st =>
    match generate_random_solution S st with
    | (.error e, st') => (.error e, st')
    | (.ok s, st') => regenScoutsGo S (i + 1) count (pop.set i s) st'

/-- Loop `for i in range(elite_sites + normal_sites, len(population))`. -/
def regenScouts (S : Settings) (i : Nat) (pop : List Solution)
    (st : List Nat) : Except String (List Solution) × List Nat :=
  regenScoutsGo S i (pop.length - i) pop st

/-- Method `BeesSolver.simulate_population`: sort the population by cost, exploit
the elite then the normal sites in place, regenerate the rest. -/
def simulate_population (cfg : BeesCfg) (S : Settings) (pop : List Solution)
    (st : List Nat) : Except String (List Solution) × List Nat :=
  let sortedPop := List.insertionSort (costLE S) pop
  match exploitSites cfg S cfg.elite_site_size 0 cfg.elite_sites sortedPop st with
  | (.error e, st1) => (.error e, st1)
  | (.ok p1, st1) =>
    match exploitSites cfg S cfg.normal_site_size cfg.elite_sites
        cfg.normal_sites p1 st1 with
    | (.error e, st2) => (.error e, st2)
    | (.ok p2, st2) =>
      regenScouts S (cfg.elite_sites + cfg.normal_sites) p2 st2

/-- The population initialisation list comprehension
(`[generate_random_solution(settings) for _ in range(population_size)]`). -/
def genPopulation (S : Settings) :
    Nat → List Nat → Except String (List Solution) × List Nat
  | 0, st => (.ok [], st)
  | k + 1, st =>
    match generate_random_solution S st with
    | (.error e, st') => (.error e, st')
    | (.ok s, st') =>
      match genPopulation S k st' with
      | (.error e, st'') => (.error e, st'')
      | (.ok ps, st'') => (.ok (s :: ps), st'')

/-- The `for _ in range(iterations)` loop of `BeesSolver.find_best_solution`. -/
def iterateGenerations (cfg : BeesCfg) (S : Settings) :
    Nat → List Solution → List Nat →
    Except String (List Solution) × List Nat
  | 0, pop, st => (.ok pop, st)
  | k + 1, pop, st =>
    match simulate_population cfg S pop st with
    | (.error e, st') => (.error e, st')
    | (.ok pop', st') => iterateGenerations cfg S k pop' st'

/-- Method `BeesSolver.find_best_solution`: initialise the population, run the
generations, return `population[0]`.  The final population (the state
`self.population` is left in) is returned alongside the result. -/
def find_best_solution (cfg : BeesCfg) (S : Settings) (iterations : Nat)
    (st : List Nat) : Except String (Solution × List Solution) × List Nat :=
  match genPopulation S cfg.population_size st with
  | (.error e, st') => (.error e, st')
  | (.ok pop, st') =>
    match iterateGenerations cfg S iterations pop st' with
    | (.error e, st'') => (.error e, st'')
    | (.ok pop', st'') =>
      match pop'[0]? with
      | none => (.error "list index out of range", st'')
      | some s => (.ok (s, pop'), st'')

/-- Minimum cost over a population (`0` for the empty population; every use
below is on provably nonempty populations). -/
def minCost (S : Settings) : List Solution → Nat
  | [] => 0
  | [p] => calculate_cost p S
  | p :: q :: ps => Nat.min (calculate_cost p S) (minCost S (q :: ps))

/-- The message of a raised exception, if any. -/
def errorOf {α : Type} : Except String α → Option String
  | .error e => some e
  | .ok _ => none

/-! ### Termination potential for the capacity-repair loop -/

/-- Number of module types with a positive count on rocket `r`. -/
def posCount (S : Settings) (A : Nat → Nat → Nat) (r : Nat) : Nat :=
  ((Finset.range S.num_module_types).filter fun j => 0 < A r j).card

/-- Per-rocket potential: overloaded rockets pay one unit per positive entry
plus one; exactly-full rockets are settled and pay nothing; underfull
rockets may still become overloaded once and pay the worst case up front. -/
def phiRow (S : Settings) (A : Nat → Nat → Nat) (r : Nat) : Nat :=
  if S.rocket_capacity < rowSum S A r then 1 + posCount S A r
  else if rowSum S A r = S.rocket_capacity then 0
  else S.num_module_types + 2

/-- Total potential of an allocation; it strictly decreases at every
iteration of the capacity-repair loop (`phi_repairStep_lt`). -/
def phi (S : Settings) (A : Nat → Nat → Nat) : Nat :=
  ∑ r in Finset.range S.num_rockets, phiRow S A r

/-- Total number of allocated modules. -/
def totalSum (S : Settings) (A : Nat → Nat → Nat) : Nat :=
  ∑ r in Finset.range S.num_rockets, rowSum S A r

/-! ### Concrete instances used by witnesses and counterexamples -/

/-- Two rocket types of base fuel cost `0` and `10`, one rocket, one module
type with zero demand: costs are decided purely by the rocket type. -/
def S0 : Settings :=
  { num_rocket_types := 2, num_module_types := 1, num_rockets := 1,
    rocket_capacity := 1, additional_fuel_costs := fun _ _ => 0,
    fuel_costs := fun t => 10 * t, module_amounts := fun _ => 0 }

/-- The zero-cost solution for `S0`: type-0 rocket, empty allocation. -/
def solType0 : Solution := ⟨fun _ => 0, fun _ _ => 0⟩

/-- Engine parameters: population 2, one elite site explored with 0
neighbours, no normal sites, no mutations per pass. -/
def cfg2 : BeesCfg :=
  { population_size := 2, modules_mutations := 0, rockets_type_mutations := 0,
    elite_sites := 1, normal_sites := 0, elite_site_size := 0,
    normal_site_size := 0 }

/-- Engine parameters with zero elite and zero normal sites: every slot is a
scout slot. -/
def cfg3 : BeesCfg :=
  { population_size := 1, modules_mutations := 0, rockets_type_mutations := 0,
    elite_sites := 0, normal_sites := 0, elite_site_size := 0,
    normal_site_size := 0 }

/-- A feasible two-rocket instance whose total demand equals total
capacity. -/
def S7 : Settings :=
  { num_rocket_types := 1, num_module_types := 1, num_rockets := 2,
    rocket_capacity := 1, additional_fuel_costs := fun _ _ => 0,
    fuel_costs := fun _ => 0, module_amounts := fun _ => 2 }

/-- An allocation for `S7` with both modules on rocket 0 (overloaded). -/
def A7 : Nat → Nat → Nat := fun r j => if r = 0 ∧ j = 0 then 2 else 0

/-- The spec scenario `Configuration(numRockets=1, rocketCapacity=1,
moduleAmounts=[5])`: infeasible. -/
def S8 : Settings :=
  { num_rocket_types := 1, num_module_types := 1, num_rockets := 1,
    rocket_capacity := 1, additional_fuel_costs := fun _ _ => 0,
    fuel_costs := fun _ => 0, module_amounts := fun _ => 5 }

/-- Two rockets of capacity 2, one module type with demand 1. -/
def S5 : Settings :=
  { num_rocket_types := 1, num_module_types := 1, num_rockets := 2,
    rocket_capacity := 2, additional_fuel_costs := fun _ _ => 0,
    fuel_costs := fun _ => 0, module_amounts := fun _ => 1 }

/-- One rocket of capacity 1, one module type with demand 1: the single
rocket is full, so no transfer destination exists. -/
def S10 : Settings :=
  { num_rocket_types := 1, num_module_types := 1, num_rockets := 1,
    rocket_capacity := 1, additional_fuel_costs := fun _ _ => 0,
    fuel_costs := fun _ => 0, module_amounts := fun _ => 1 }

/-- A solution holding exactly one module, on rocket 0. -/
def solOne : Solution := ⟨fun _ => 0, fun r j => if r = 0 ∧ j = 0 then 1 else 0⟩

/-! ### Helper lemmas: validity predicates -/

theorem is_valid_capacity_iff {sol : Solution} {S : Settings} :
    is_valid_capacity sol S = true ↔
      ∀ r < S.num_rockets,
        rowSum S sol.module_allocation r ≤ S.rocket_capacity := by
  simp [is_valid_capacity, List.all_eq_true, List.mem_range]

theorem is_valid_module_total_iff {sol : Solution} {S : Settings} :
    is_valid_module_total sol S = true ↔
      ∀ j < S.num_module_types,
        colSum S sol.module_allocation j = S.module_amounts j := by
  simp [is_valid_module_total, List.all_eq_true, List.mem_range]

theorem overloadedExists_eq_false_iff {S : Settings} {A : Nat → Nat → Nat} :
    overloadedExists S A = false ↔
      ∀ r < S.num_rockets, rowSum S A r ≤ S.rocket_capacity := by
  simp [overloadedExists, List.any_eq_false, List.mem_range, Nat.not_lt]

theorem overloadedExists_eq_true_iff {S : Settings} {A : Nat → Nat → Nat} :
    overloadedExists S A = true ↔
      ∃ r < S.num_rockets, S.rocket_capacity < rowSum S A r := by
  simp [overloadedExists, List.any_eq_true, List.mem_range]

/-! ### Helper lemmas: matrix update -/

theorem updAt2_self (A : Nat → Nat → Nat) (r j v : Nat) :
    updAt2 A r j v r j = v := by
  simp [updAt2]

theorem updAt2_ne {A : Nat → Nat → Nat} {r j v r' j' : Nat}
    (h : ¬(r' = r ∧ j' = j)) : updAt2 A r j v r' j' = A r' j' := by
  simp only [updAt2, if_neg h]

theorem updAt2_ne_row {A : Nat → Nat → Nat} {r j v r' : Nat} (h : r' ≠ r)
    (j' : Nat) : updAt2 A r j v r' j' = A r' j' :=
  updAt2_ne fun hc => h hc.1

theorem updAt2_ne_col {A : Nat → Nat → Nat} {r j v j' : Nat} (h : j' ≠ j)
    (r' : Nat) : updAt2 A r j v r' j' = A r' j' :=
  updAt2_ne fun hc => h hc.2

/-- Split a sum over `range n` at two distinct members. -/
theorem sum_split_two {f : Nat → Nat} {n a b : Nat} (ha : a < n) (hb : b < n)
    (hab : a ≠ b) :
    ∑ i in Finset.range n, f i =
      f a + f b + ∑ i in ((Finset.range n).erase a).erase b, f i := by
  have ha' : a ∈ Finset.range n := Finset.mem_range.mpr ha
  have hb' : b ∈ (Finset.range n).erase a :=
    Finset.mem_erase.mpr ⟨fun h => hab (h.symm), Finset.mem_range.mpr hb⟩
  rw [← Finset.add_sum_erase _ f ha', ← Finset.add_sum_erase _ f hb']
  ring

theorem rowSum_updAt2_other {S : Settings} {A : Nat → Nat → Nat}
    {r j v r' : Nat} (h : r' ≠ r) :
    rowSum S (updAt2 A r j v) r' = rowSum S A r' :=
  Finset.sum_congr rfl fun j' _ => updAt2_ne_row h j'

theorem rowSum_updAt2_self {S : Settings} {A : Nat → Nat → Nat} {r j v : Nat}
    (hj : j < S.num_module_types) :
    rowSum S (updAt2 A r j v) r + A r j = rowSum S A r + v := by
  have hjm : j ∈ Finset.range S.num_module_types := Finset.mem_range.mpr hj
  have h1 : rowSum S (updAt2 A r j v) r =
      v + ∑ j' in (Finset.range S.num_module_types).erase j, A r j' := by
    rw [rowSum, ← Finset.add_sum_erase _ _ hjm, updAt2_self]
    exact congrArg (v + ·)
      (Finset.sum_congr rfl fun j' hj' =>
        updAt2_ne_col (Finset.ne_of_mem_erase hj') r)
  have h2 : rowSum S A r =
      A r j + ∑ j' in (Finset.range S.num_module_types).erase j, A r j' := by
    rw [rowSum, ← Finset.add_sum_erase _ _ hjm]
  omega

theorem colSum_updAt2_other {S : Settings} {A : Nat → Nat → Nat}
    {r j v j' : Nat} (h : j' ≠ j) :
    colSum S (updAt2 A r j v) j' = colSum S A j' :=
  Finset.sum_congr rfl fun r' _ => updAt2_ne_col h r'

theorem colSum_updAt2_self {S : Settings} {A : Nat → Nat → Nat} {r j v : Nat}
    (hr : r < S.num_rockets) :
    colSum S (updAt2 A r j v) j + A r j = colSum S A j + v := by
  have hrm : r ∈ Finset.range S.num_rockets := Finset.mem_range.mpr hr
  have h1 : colSum S (updAt2 A r j v) j =
      v + ∑ r' in (Finset.range S.num_rockets).erase r, A r' j := by
    rw [colSum, ← Finset.add_sum_erase _ _ hrm, updAt2_self]
    exact congrArg (v + ·)
      (Finset.sum_congr rfl fun r' hr' =>
        updAt2_ne_row (Finset.ne_of_mem_erase hr') j)
  have h2 : colSum S A j =
      A r j + ∑ r' in (Finset.range S.num_rockets).erase r, A r' j := by
    rw [colSum, ← Finset.add_sum_erase _ _ hrm]
  omega

/-! ### Helper lemmas: argmax / argmin -/

theorem argmaxAux_le (g : Nat → Nat) (i : Nat) : argmaxAux g i ≤ i := by
  induction i with
  | zero => simp [argmaxAux]
  | succ i ih =>
    rw [argmaxAux]
    split
    · exact Nat.le_refl _
    · exact Nat.le_succ_of_le ih

theorem le_argmaxAux (g : Nat → Nat) (i : Nat) :
    ∀ k ≤ i, g k ≤ g (argmaxAux g i) := by
  induction i with
  | zero =>
    intro k hk
    simp [Nat.le_zero.mp hk, argmaxAux]
  | succ i ih =>
    intro k hk
    rw [argmaxAux]
    split
    · rename_i hlt
      by_cases h : k = i + 1
      · subst h; exact Nat.le_refl _
      · exact Nat.le_of_lt (Nat.lt_of_le_of_lt (ih k (by omega)) hlt)
    · rename_i hnlt
      by_cases h : k = i + 1
      · subst h; exact Nat.le_of_not_lt hnlt
      · exact ih k (by omega)

theorem argmaxIdx_lt (g : Nat → Nat) {n : Nat} (hn : 0 < n) :
    argmaxIdx g n < n :=
  Nat.lt_of_le_of_lt (argmaxAux_le g (n - 1)) (by omega)

theorem le_argmaxIdx (g : Nat → Nat) {n : Nat} {k : Nat} (hk : k < n) :
    g k ≤ g (argmaxIdx g n) :=
  le_argmaxAux g (n - 1) k (by omega)

theorem argminAux_le (g : Nat → Nat) (i : Nat) : argminAux g i ≤ i := by
  induction i with
  | zero => simp [argminAux]
  | succ i ih =>
    rw [argminAux]
    split
    · exact Nat.le_refl _
    · exact Nat.le_succ_of_le ih

theorem argminAux_le_apply (g : Nat → Nat) (i : Nat) :
    ∀ k ≤ i, g (argminAux g i) ≤ g k := by
  induction i with
  | zero =>
    intro k hk
    simp [Nat.le_zero.mp hk, argminAux]
  | succ i ih =>
    intro k hk
    rw [argminAux]
    split
    · rename_i hlt
      by_cases h : k = i + 1
      · subst h; exact Nat.le_refl _
      · exact Nat.le_of_lt (Nat.lt_of_lt_of_le hlt (ih k (by omega)))
    · rename_i hnlt
      by_cases h : k = i + 1
      · subst h; exact Nat.le_of_not_lt hnlt
      · exact ih k (by omega)

theorem argminIdx_lt (g : Nat → Nat) {n : Nat} (hn : 0 < n) :
    argminIdx g n < n :=
  Nat.lt_of_le_of_lt (argminAux_le g (n - 1)) (by omega)

theorem argminIdx_le (g : Nat → Nat) {n : Nat} {k : Nat} (hk : k < n) :
    g (argminIdx g n) ≤ g k :=
  argminAux_le_apply g (n - 1) k (by omega)

/-! ### Helper lemmas: multinomial column generation -/

theorem multinomial_sum {n : Nat} (hn : 0 < n) (a : Nat) (st : List Nat) :
    ∑ r in Finset.range n, (multinomial a n st).1 r = a := by
  induction a generalizing st with
  | zero => simp [multinomial]
  | succ a ih =>
    rw [multinomial]
    simp only
    rw [Finset.sum_add_distrib, ih]
    have hmem : (next st).1 % n ∈ Finset.range n :=
      Finset.mem_range.mpr (Nat.mod_lt _ hn)
    rw [Finset.sum_ite_eq (Finset.range n) ((next st).1 % n) (fun _ => 1),
      if_pos hmem]
    omega

theorem multinomial_ge {n r : Nat} (hr : n ≤ r) (hn : 0 < n) (a : Nat)
    (st : List Nat) : (multinomial a n st).1 r = 0 := by
  induction a generalizing st with
  | zero => simp [multinomial]
  | succ a ih =>
    rw [multinomial]
    simp only
    rw [ih, if_neg]
    have := Nat.mod_lt (next st).1 hn
    omega

theorem genColumns_ge {S : Settings} {j : Nat} (k : Nat) (hj : k ≤ j)
    (st : List Nat) (r : Nat) : (genColumns S k st).1 r j = 0 := by
  induction k generalizing st with
  | zero => simp [genColumns]
  | succ k ih =>
    rw [genColumns]
    simp only
    rw [if_neg (by omega), ih (by omega)]

theorem genColumns_colSum {S : Settings} (hn : 0 < S.num_rockets) (k : Nat)
    (st : List Nat) {j : Nat} (hj : j < k) :
    colSum S (genColumns S k st).1 j = S.module_amounts j := by
  induction k generalizing st with
  | zero => omega
  | succ k ih =>
    rw [genColumns]
    simp only
    by_cases h : j = k
    · subst h
      unfold colSum
      rw [Finset.sum_congr rfl fun r _ => if_pos rfl]
      exact multinomial_sum hn _ _
    · have : colSum S (fun r j' =>
          if j' = k then (multinomial (S.module_amounts k) S.num_rockets
            (genColumns S k st).2).1 r
          else (genColumns S k st).1 r j') j
          = colSum S (genColumns S k st).1 j :=
        Finset.sum_congr rfl fun r _ => if_neg h
      rw [this]
      exact ih _ (by omega)

theorem totalSum_eq_sum_colSum (S : Settings) (A : Nat → Nat → Nat) :
    totalSum S A = ∑ j in Finset.range S.num_module_types, colSum S A j := by
  rw [totalSum]
  unfold rowSum colSum
  exact Finset.sum_comm

theorem totalSum_genColumns {S : Settings} (hn : 0 < S.num_rockets)
    (st : List Nat) :
    totalSum S (genColumns S S.num_module_types st).1 =
      ∑ j in Finset.range S.num_module_types, S.module_amounts j := by
  rw [totalSum_eq_sum_colSum]
  exact Finset.sum_congr rfl fun j hj =>
    genColumns_colSum hn _ st (Finset.mem_range.mp hj)

/-! ### Helper lemmas: the potential function -/

theorem posCount_le (S : Settings) (A : Nat → Nat → Nat) (r : Nat) :
    posCount S A r ≤ S.num_module_types := by
  calc posCount S A r ≤ (Finset.range S.num_module_types).card :=
        Finset.card_le_card (Finset.filter_subset _ _)
    _ = S.num_module_types := Finset.card_range _

theorem phiRow_le (S : Settings) (A : Nat → Nat → Nat) (r : Nat) :
    phiRow S A r ≤ S.num_module_types + 2 := by
  rw [phiRow]
  split
  · have := posCount_le S A r
    omega
  · split
    · omega
    · omega

theorem phi_le_repairFuel (S : Settings) (A : Nat → Nat → Nat) :
    phi S A ≤ repairFuel S := by
  rw [phi, repairFuel]
  calc ∑ r in Finset.range S.num_rockets, phiRow S A r
      ≤ ∑ _r in Finset.range S.num_rockets, (S.num_module_types + 2) :=
        Finset.sum_le_sum fun r _ => phiRow_le S A r
    _ = S.num_rockets * (S.num_module_types + 2) := by
        rw [Finset.sum_const, Finset.card_range, smul_eq_mul]

/-- Potential `phiRow` only depends on row `r` of the matrix. -/
theorem phiRow_congr {S : Settings} {A B : Nat → Nat → Nat} {r : Nat}
    (h : ∀ j, A r j = B r j) : phiRow S A r = phiRow S B r := by
  have hrow : rowSum S A r = rowSum S B r :=
    Finset.sum_congr rfl fun j _ => h j
  have hpos : posCount S A r = posCount S B r := by
    unfold posCount
    exact congrArg Finset.card (Finset.filter_congr fun j _ => by rw [h j])
  rw [phiRow, phiRow, hrow, hpos]

theorem phi_pos_of_overloaded {S : Settings} {A : Nat → Nat → Nat}
    (h : overloadedExists S A = true) : 0 < phi S A := by
  obtain ⟨r, hr, hover⟩ := overloadedExists_eq_true_iff.mp h
  have h1 : 1 ≤ phiRow S A r := by
    rw [phiRow, if_pos hover]; omega
  calc 0 < phiRow S A r := h1
    _ ≤ phi S A :=
      Finset.single_le_sum (fun i _ => Nat.zero_le _) (Finset.mem_range.mpr hr)

/-! ### Helper lemmas: the transfer operation -/

theorem transfer_apply_other_row {A : Nat → Nat → Nat} {src dst j t r' : Nat}
    (h1 : r' ≠ src) (h2 : r' ≠ dst) (j' : Nat) :
    transfer A src dst j t r' j' = A r' j' := by
  rw [transfer]
  rw [updAt2_ne_row h2, updAt2_ne_row h1]

theorem transfer_apply_other_col {A : Nat → Nat → Nat} {src dst j t j' : Nat}
    (h : j' ≠ j) (r' : Nat) : transfer A src dst j t r' j' = A r' j' := by
  rw [transfer]
  rw [updAt2_ne_col h, updAt2_ne_col h]

theorem transfer_apply_src {A : Nat → Nat → Nat} {src dst j t : Nat}
    (hne : src ≠ dst) : transfer A src dst j t src j = A src j - t := by
  rw [transfer]
  rw [updAt2_ne_row hne, updAt2_self]

theorem transfer_apply_same {A : Nat → Nat → Nat} {src dst j t : Nat}
    (heq : src = dst) (ht : t ≤ A src j) (r' j' : Nat) :
    transfer A src dst j t r' j' = A r' j' := by
  subst heq
  rw [transfer]
  by_cases h : r' = src ∧ j' = j
  · obtain ⟨h1, h2⟩ := h
    subst h1; subst h2
    rw [updAt2_self, show updAt2 A r' j' (A r' j' - t) r' j' = A r' j' - t from
      updAt2_self A r' j' _]
    omega
  · rw [updAt2_ne h, updAt2_ne h]

theorem rowSum_transfer_other {S : Settings} {A : Nat → Nat → Nat}
    {src dst j t r' : Nat} (h1 : r' ≠ src) (h2 : r' ≠ dst) :
    rowSum S (transfer A src dst j t) r' = rowSum S A r' :=
  Finset.sum_congr rfl fun j' _ => transfer_apply_other_row h1 h2 j'

theorem rowSum_transfer_src {S : Settings} {A : Nat → Nat → Nat}
    {src dst j t : Nat} (hne : src ≠ dst) (hj : j < S.num_module_types)
    (ht : t ≤ A src j) :
    rowSum S (transfer A src dst j t) src + t = rowSum S A src := by
  have h1 : rowSum S (transfer A src dst j t) src
      = rowSum S (updAt2 A src j (A src j - t)) src := by
    rw [transfer]
    exact rowSum_updAt2_other hne
  have h2 := rowSum_updAt2_self (A := A) (r := src) (j := j)
    (v := A src j - t) hj
  have h3 : A src j ≤ rowSum S A src :=
    Finset.single_le_sum (f := fun j' => A src j')
      (fun i _ => Nat.zero_le _) (Finset.mem_range.mpr hj)
  omega

theorem rowSum_transfer_dst {S : Settings} {A : Nat → Nat → Nat}
    {src dst j t : Nat} (hne : src ≠ dst) (hj : j < S.num_module_types) :
    rowSum S (transfer A src dst j t) dst = rowSum S A dst + t := by
  have h0 : rowSum S (updAt2 A src j (A src j - t)) dst = rowSum S A dst :=
    rowSum_updAt2_other fun h => hne h.symm
  have h1 : updAt2 A src j (A src j - t) dst j = A dst j :=
    updAt2_ne_row (fun h => hne h.symm) j
  have h2 := rowSum_updAt2_self (A := updAt2 A src j (A src j - t)) (r := dst)
    (j := j) (v := updAt2 A src j (A src j - t) dst j + t) hj
  rw [transfer]
  omega

theorem colSum_transfer {S : Settings} {A : Nat → Nat → Nat}
    {src dst j t : Nat} (hsrc : src < S.num_rockets)
    (hdst : dst < S.num_rockets) (ht : t ≤ A src j) (j' : Nat) :
    colSum S (transfer A src dst j t) j' = colSum S A j' := by
  by_cases hcol : j' = j
  · subst hcol
    have h1 := colSum_updAt2_self (A := A) (r := src) (j := j')
      (v := A src j' - t) hsrc
    have h2 := colSum_updAt2_self (A := updAt2 A src j' (A src j' - t))
      (r := dst) (j := j')
      (v := updAt2 A src j' (A src j' - t) dst j' + t) hdst
    have h3 : A src j' ≤ colSum S A j' :=
      Finset.single_le_sum (f := fun r => A r j')
        (fun i _ => Nat.zero_le _) (Finset.mem_range.mpr hsrc)
    rw [transfer]
    omega
  · exact Finset.sum_congr rfl fun r' _ => transfer_apply_other_col hcol r'

theorem totalSum_transfer {S : Settings} {A : Nat → Nat → Nat}
    {src dst j t : Nat} (hsrc : src < S.num_rockets)
    (hdst : dst < S.num_rockets) (ht : t ≤ A src j) :
    totalSum S (transfer A src dst j t) = totalSum S A := by
  rw [totalSum_eq_sum_colSum, totalSum_eq_sum_colSum]
  exact Finset.sum_congr rfl fun j' _ => colSum_transfer hsrc hdst ht j'

/-- The strict potential decrease of one repair-loop iteration: moving
`t = min(entry, overload)` from an overloaded row to a strictly underfull
row strictly decreases `phi`. -/
theorem phi_transfer_lt {S : Settings} {A : Nat → Nat → Nat}
    {mx mn jx t : Nat} (hmx : mx < S.num_rockets) (hmn : mn < S.num_rockets)
    (hne : mx ≠ mn) (hjx : jx < S.num_module_types)
    (hover : S.rocket_capacity < rowSum S A mx)
    (hunder : rowSum S A mn < S.rocket_capacity) (hposA : 1 ≤ A mx jx)
    (ht : t = min (A mx jx) (rowSum S A mx - S.rocket_capacity)) :
    phi S (transfer A mx mn jx t) < phi S A := by
  have ht1 : 1 ≤ t := by omega
  have htA : t ≤ A mx jx := by omega
  have hto : t ≤ rowSum S A mx - S.rocket_capacity := by omega
  have hrow_src := rowSum_transfer_src (S := S) (A := A) (t := t) hne hjx htA
  have hrow_dst := rowSum_transfer_dst (S := S) (A := A) (t := t) hne hjx
  have hsplitA : phi S A = phiRow S A mx + phiRow S A mn +
      ∑ i in ((Finset.range S.num_rockets).erase mx).erase mn,
        phiRow S A i := by
    rw [phi]; exact sum_split_two hmx hmn hne
  have hsplitB : phi S (transfer A mx mn jx t) =
      phiRow S (transfer A mx mn jx t) mx +
      phiRow S (transfer A mx mn jx t) mn +
      ∑ i in ((Finset.range S.num_rockets).erase mx).erase mn,
        phiRow S (transfer A mx mn jx t) i := by
    rw [phi]; exact sum_split_two hmx hmn hne
  have hrest : ∑ i in ((Finset.range S.num_rockets).erase mx).erase mn,
      phiRow S (transfer A mx mn jx t) i =
      ∑ i in ((Finset.range S.num_rockets).erase mx).erase mn,
        phiRow S A i := by
    refine Finset.sum_congr rfl fun i hi => ?_
    have hi1 : i ≠ mn := (Finset.mem_erase.mp hi).1
    have hi2 : i ≠ mx :=
      (Finset.mem_erase.mp (Finset.mem_of_mem_erase hi)).1
    exact phiRow_congr fun j' => transfer_apply_other_row hi2 hi1 j'
  have hA_mn : phiRow S A mn = S.num_module_types + 2 := by
    rw [phiRow, if_neg (by omega), if_neg (by omega)]
  have hB_mn_le : phiRow S (transfer A mx mn jx t) mn ≤
      S.num_module_types + 2 := phiRow_le S _ mn
  rcases Nat.lt_or_ge (A mx jx) (rowSum S A mx - S.rocket_capacity)
    with hcase | hcase
  · -- `t = A mx jx`: the source entry is zeroed and the row stays overloaded
    have htt : t = A mx jx := by omega
    have hrow_mx_B : S.rocket_capacity <
        rowSum S (transfer A mx mn jx t) mx := by omega
    have hBjx : transfer A mx mn jx t mx jx = 0 := by
      rw [transfer_apply_src hne]; omega
    have hBother : ∀ j', j' ≠ jx → transfer A mx mn jx t mx j' = A mx j' :=
      fun j' hj' => transfer_apply_other_col hj' mx
    have hmem : jx ∈ (Finset.range S.num_module_types).filter
        fun j' => 0 < A mx j' :=
      Finset.mem_filter.mpr ⟨Finset.mem_range.mpr hjx, hposA⟩
    have hfilter : ((Finset.range S.num_module_types).filter
        fun j' => 0 < transfer A mx mn jx t mx j') =
        ((Finset.range S.num_module_types).filter
          fun j' => 0 < A mx j').erase jx := by
      ext j'
      by_cases h : j' = jx
      · subst h
        simp [Finset.mem_filter, Finset.mem_erase, hBjx]
      · simp [Finset.mem_filter, Finset.mem_erase, h, hBother j' h]
    have hposB : posCount S (transfer A mx mn jx t) mx < posCount S A mx := by
      rw [posCount, posCount, hfilter, Finset.card_erase_of_mem hmem]
      have hpos : 0 < ((Finset.range S.num_module_types).filter
          fun j' => 0 < A mx j').card :=
        Finset.card_pos.mpr ⟨jx, hmem⟩
      omega
    have hphiA_mx : phiRow S A mx = 1 + posCount S A mx := by
      rw [phiRow, if_pos hover]
    have hphiB_mx : phiRow S (transfer A mx mn jx t) mx =
        1 + posCount S (transfer A mx mn jx t) mx := by
      rw [phiRow, if_pos hrow_mx_B]
    omega
  · -- `t = overload`: the source row lands exactly on the capacity
    have htt : t = rowSum S A mx - S.rocket_capacity := by omega
    have hrow_mx_B : rowSum S (transfer A mx mn jx t) mx =
        S.rocket_capacity := by omega
    have hphiB_mx : phiRow S (transfer A mx mn jx t) mx = 0 := by
      rw [phiRow, if_neg (by omega), if_pos hrow_mx_B]
    have hphiA_mx : 1 ≤ phiRow S A mx := by
      rw [phiRow, if_pos hover]; omega
    omega

/-! ### The capacity-repair loop terminates -/

theorem repairStep_eq (S : Settings) (A : Nat → Nat → Nat) :
    repairStep S A =
      transfer A (argmaxIdx (fun r => rowSum S A r) S.num_rockets)
        (argminIdx (fun r => rowSum S A r) S.num_rockets)
        (argmaxIdx
          (fun j => A (argmaxIdx (fun r => rowSum S A r) S.num_rockets) j)
          S.num_module_types)
        (min
          (A (argmaxIdx (fun r => rowSum S A r) S.num_rockets)
            (argmaxIdx
              (fun j => A (argmaxIdx (fun r => rowSum S A r) S.num_rockets) j)
              S.num_module_types))
          (rowSum S A (argmaxIdx (fun r => rowSum S A r) S.num_rockets)
            - S.rocket_capacity)) := rfl

theorem repairStep_spec {S : Settings} {A : Nat → Nat → Nat}
    (hov : overloadedExists S A = true)
    (hfeas : totalSum S A ≤ S.num_rockets * S.rocket_capacity) :
    phi S (repairStep S A) < phi S A ∧
    totalSum S (repairStep S A) = totalSum S A ∧
    ∀ j, colSum S (repairStep S A) j = colSum S A j := by
  obtain ⟨r0, hr0, hover0⟩ := overloadedExists_eq_true_iff.mp hov
  have hn : 0 < S.num_rockets := by omega
  rw [repairStep_eq]
  set mx := argmaxIdx (fun r => rowSum S A r) S.num_rockets with hmxd
  set mn := argminIdx (fun r => rowSum S A r) S.num_rockets with hmnd
  set jx := argmaxIdx (fun j => A mx j) S.num_module_types with hjxd
  have hmx_lt : mx < S.num_rockets := argmaxIdx_lt _ hn
  have hmn_lt : mn < S.num_rockets := argminIdx_lt _ hn
  have hmx_max : ∀ k, k < S.num_rockets → rowSum S A k ≤ rowSum S A mx :=
    fun k hk => le_argmaxIdx (fun r => rowSum S A r) hk
  have hmn_min : ∀ k, k < S.num_rockets → rowSum S A mn ≤ rowSum S A k :=
    fun k hk => argminIdx_le (fun r => rowSum S A r) hk
  have hover_mx : S.rocket_capacity < rowSum S A mx :=
    Nat.lt_of_lt_of_le hover0 (hmx_max r0 hr0)
  have hunder : rowSum S A mn < S.rocket_capacity := by
    by_contra hge
    push_neg at hge
    have hmem : mx ∈ Finset.range S.num_rockets := Finset.mem_range.mpr hmx_lt
    have h1 : rowSum S A mx +
        ∑ i in (Finset.range S.num_rockets).erase mx, rowSum S A i =
        totalSum S A := Finset.add_sum_erase _ _ hmem
    have h2 : ∑ i in (Finset.range S.num_rockets).erase mx,
        S.rocket_capacity ≤
        ∑ i in (Finset.range S.num_rockets).erase mx, rowSum S A i :=
      Finset.sum_le_sum fun i hi =>
        Nat.le_trans hge (hmn_min i
          (Finset.mem_range.mp (Finset.mem_of_mem_erase hi)))
    have h3 : ∑ i in (Finset.range S.num_rockets).erase mx,
        S.rocket_capacity = (S.num_rockets - 1) * S.rocket_capacity := by
      rw [Finset.sum_const, Finset.card_erase_of_mem hmem,
        Finset.card_range, smul_eq_mul]
    have h4 : (S.num_rockets - 1) * S.rocket_capacity + S.rocket_capacity =
        S.num_rockets * S.rocket_capacity := by
      have h5 : S.num_rockets - 1 + 1 = S.num_rockets := by omega
      calc (S.num_rockets - 1) * S.rocket_capacity + S.rocket_capacity
          = (S.num_rockets - 1 + 1) * S.rocket_capacity := by ring
        _ = S.num_rockets * S.rocket_capacity := by rw [h5]
    omega
  have hne : mx ≠ mn := by
    intro h
    rw [h] at hover_mx
    omega
  have hm : 0 < S.num_module_types := by
    by_contra hm0
    push_neg at hm0
    have hz : rowSum S A mx = 0 := by
      rw [rowSum, Nat.le_zero.mp hm0]
      simp
    omega
  have hjx_lt : jx < S.num_module_types := argmaxIdx_lt _ hm
  have hpos_exists : ∃ j' ∈ Finset.range S.num_module_types, 0 < A mx j' := by
    by_contra hno
    push_neg at hno
    have hz : rowSum S A mx = 0 :=
      Finset.sum_eq_zero fun j' hj' => Nat.le_zero.mp (hno j' hj')
    omega
  obtain ⟨j0, hj0m, hj0pos⟩ := hpos_exists
  have hposA : 1 ≤ A mx jx :=
    Nat.le_trans hj0pos
      (le_argmaxIdx (fun j => A mx j) (Finset.mem_range.mp hj0m))
  have htA : min (A mx jx) (rowSum S A mx - S.rocket_capacity) ≤ A mx jx := by
    omega
  refine ⟨phi_transfer_lt hmx_lt hmn_lt hne hjx_lt hover_mx hunder hposA rfl,
    totalSum_transfer hmx_lt hmn_lt htA,
    fun j => colSum_transfer hmx_lt hmn_lt htA j⟩

theorem repairGo_reaches_done {S : Settings} :
    ∀ (fuel : Nat) (A : Nat → Nat → Nat),
      totalSum S A ≤ S.num_rockets * S.rocket_capacity →
      phi S A ≤ fuel →
      overloadedExists S (repairGo S fuel A) = false ∧
      ∀ j, colSum S (repairGo S fuel A) j = colSum S A j := by
  intro fuel
  induction fuel with
  | zero =>
    intro A hfeas hphi
    rw [repairGo]
    constructor
    · cases hov : overloadedExists S A with
      | false => rfl
      | true =>
        have := phi_pos_of_overloaded hov
        omega
    · intro j; rfl
  | succ fuel ih =>
    intro A hfeas hphi
    rw [repairGo]
    cases hov : overloadedExists S A with
    | false =>
      rw [if_neg Bool.false_ne_true]
      exact ⟨hov, fun j => rfl⟩
    | true =>
      rw [if_pos rfl]
      obtain ⟨hlt, htot, hcol⟩ := repairStep_spec hov hfeas
      obtain ⟨hdone, hcols⟩ :=
        ih (repairStep S A) (htot ▸ hfeas) (by omega)
      exact ⟨hdone, fun j => (hcols j).trans (hcol j)⟩

/-- Once the loop guard is false the loop body never runs again. -/
theorem repairGo_done_eq {S : Settings} {A : Nat → Nat → Nat}
    (h : overloadedExists S A = false) : ∀ fuel, repairGo S fuel A = A := by
  intro fuel
  cases fuel with
  | zero => rfl
  | succ f => rw [repairGo, if_neg (by rw [h]; exact Bool.false_ne_true)]

/-- Running the repair loop with any more fuel after it is done changes
nothing: with fuel `repairFuel S` the fuelled loop has reached the exit
condition of the unbounded `while` loop. -/
theorem repairGo_extra_fuel {S : Settings} :
    ∀ (fuel extra : Nat) (A : Nat → Nat → Nat),
      overloadedExists S (repairGo S fuel A) = false →
      repairGo S (fuel + extra) A = repairGo S fuel A := by
  intro fuel
  induction fuel with
  | zero =>
    intro extra A hdone
    rw [repairGo] at hdone
    rw [Nat.zero_add, repairGo_done_eq hdone, repairGo_done_eq hdone]
  | succ fuel ih =>
    intro extra A hdone
    cases hov : overloadedExists S A with
    | false =>
      rw [repairGo_done_eq hov, repairGo_done_eq hov]
    | true =>
      have hR : repairGo S (fuel + 1) A = repairGo S fuel (repairStep S A) := by
        rw [repairGo, if_pos hov]
      have hL : repairGo S (fuel + 1 + extra) A
          = repairGo S (fuel + extra) (repairStep S A) := by
        have h5 : fuel + 1 + extra = (fuel + extra) + 1 := by omega
        rw [h5, repairGo, if_pos hov]
      rw [hR] at hdone
      rw [hL, hR]
      exact ih extra _ hdone

theorem generate_random_modules_allocation_spec {S : Settings}
    (st : List Nat) (hn : 0 < S.num_rockets)
    (hfeas : ∑ j in Finset.range S.num_module_types, S.module_amounts j ≤
      S.num_rockets * S.rocket_capacity) :
    ∃ A, generate_random_modules_allocation S st =
        (.ok A, (genColumns S S.num_module_types st).2) ∧
      (∀ r < S.num_rockets, rowSum S A r ≤ S.rocket_capacity) ∧
      (∀ j < S.num_module_types, colSum S A j = S.module_amounts j) := by
  have hA0 := totalSum_genColumns hn st
  obtain ⟨hdone, hcols⟩ :=
    repairGo_reaches_done (repairFuel S) (genColumns S S.num_module_types st).1
      (by omega) (phi_le_repairFuel S _)
  refine ⟨repairGo S (repairFuel S) (genColumns S S.num_module_types st).1,
    ?_, ?_, ?_⟩
  · rw [generate_random_modules_allocation, if_neg (by omega)]
  · exact overloadedExists_eq_false_iff.mp hdone
  · intro j hj
    rw [hcols j]
    exact genColumns_colSum hn _ st hj

theorem generate_random_rockets_type_allocation_ok {S : Settings}
    (st : List Nat) (ht : 0 < S.num_rocket_types) :
    generate_random_rockets_type_allocation S st =
      (.ok (fun r =>
          (takeDraws S.num_rockets st).1.getD r 0 % S.num_rocket_types),
        (takeDraws S.num_rockets st).2) := by
  rw [generate_random_rockets_type_allocation, if_neg (by omega)]

/-- Claim C1: for every feasible configuration (with positive rocket count
and positive number of rocket types, as required by the data model), the
random solution generator returns successfully — in particular the
`RuntimeError` branch guarding the post-construction assertion is not
taken — and the produced solution satisfies both structural invariants. -/
theorem random_solution_valid {S : Settings} (st : List Nat)
    (ht : 0 < S.num_rocket_types) (hn : 0 < S.num_rockets)
    (hfeas : ∑ j in Finset.range S.num_module_types, S.module_amounts j ≤
      S.num_rockets * S.rocket_capacity) :
    ∃ sol, (generate_random_solution S st).1 = .ok sol ∧
      is_valid_capacity sol S = true ∧ is_valid_module_total sol S = true := by
  obtain ⟨A, hA, hcap, hcol⟩ :=
    generate_random_modules_allocation_spec (S := S)
      (takeDraws S.num_rockets st).2 hn hfeas
  have hrta := generate_random_rockets_type_allocation_ok st ht
  refine ⟨⟨fun r =>
      (takeDraws S.num_rockets st).1.getD r 0 % S.num_rocket_types, A⟩,
    ?_, is_valid_capacity_iff.mpr hcap, is_valid_module_total_iff.mpr hcol⟩
  have hcapb : is_valid_capacity
      ⟨fun r => (takeDraws S.num_rockets st).1.getD r 0 % S.num_rocket_types,
        A⟩ S = true := is_valid_capacity_iff.mpr hcap
  have hcolb : is_valid_module_total
      ⟨fun r => (takeDraws S.num_rockets st).1.getD r 0 % S.num_rocket_types,
        A⟩ S = true := is_valid_module_total_iff.mpr hcol
  simp only [generate_random_solution, hrta, hA, hcapb, hcolb,
    Bool.and_self, if_true]

/-- Claim C7: for every allocation whose total does not exceed the total
fleet capacity (which holds for every allocation the feasible generator
builds), the capacity-repair loop reaches its exit condition within
`repairFuel S = numRockets * (numModuleTypes + 2)` iterations — an
`O(numRockets * numModuleTypes)` bound on the number of transfer steps. -/
theorem repair_loop_terminates_in_quadratic_steps (S : Settings)
    (A : Nat → Nat → Nat)
    (hfeas : totalSum S A ≤ S.num_rockets * S.rocket_capacity) :
    overloadedExists S (repairGo S (repairFuel S) A) = false :=
  (repairGo_reaches_done (repairFuel S) A hfeas (phi_le_repairFuel S A)).1

/-- Witness for C7: both modules start on rocket 0 of the two-rocket
instance `S7`; the loop terminates within `repairFuel S7 = 6` steps. -/
theorem repair_loop_terminates_in_quadratic_steps_witness :
    totalSum S7 A7 ≤ S7.num_rockets * S7.rocket_capacity ∧
    overloadedExists S7 (repairGo S7 (repairFuel S7) A7) = false :=
  ⟨by decide, repair_loop_terminates_in_quadratic_steps S7 A7 (by decide)⟩

/-- Witness for C1: a concrete feasible configuration and stream on which
the generator succeeds with a valid solution. -/
theorem random_solution_valid_witness :
    0 < S7.num_rocket_types ∧ 0 < S7.num_rockets ∧
    (∑ j in Finset.range S7.num_module_types, S7.module_amounts j ≤
      S7.num_rockets * S7.rocket_capacity) ∧
    ∃ sol, (generate_random_solution S7 [5, 3, 4]).1 = .ok sol ∧
      is_valid_capacity sol S7 = true ∧ is_valid_module_total sol S7 = true :=
  ⟨by decide, by decide, by decide,
    random_solution_valid [5, 3, 4] (by decide) (by decide) (by decide)⟩

/-- Claim C8 (amended): on an infeasible configuration the generator raises
the capacity `ValueError` (the spec's ConfigurationError), *after* the
rocket-type allocation has been generated (its `numRockets` random draws
are consumed from the stream) but before any module-allocation work. -/
theorem infeasible_raises_after_type_allocation {S : Settings} (st : List Nat)
    (ht : 0 < S.num_rocket_types)
    (hinf : S.num_rockets * S.rocket_capacity <
      ∑ j in Finset.range S.num_module_types, S.module_amounts j) :
    generate_random_solution S st =
      (.error "Not enough capacity to carry all modules.",
        (takeDraws S.num_rockets st).2) := by
  have hmod : generate_random_modules_allocation S
      (takeDraws S.num_rockets st).2 =
      (.error "Not enough capacity to carry all modules.",
        (takeDraws S.num_rockets st).2) := by
    rw [generate_random_modules_allocation, if_pos hinf]
  simp only [generate_random_solution,
    generate_random_rockets_type_allocation_ok st ht, hmod]

/-- Counterexample to C8 as stated: on the spec scenario the ValueError is
raised, but the random stream has been consumed by then — the rocket-type
allocation was drawn before the feasibility check fired, so the raise does
not happen "before any allocation work". -/
theorem infeasible_scenario_consumes_type_draws :
    errorOf (generate_random_solution S8 [3]).1 =
      some "Not enough capacity to carry all modules." ∧
    (generate_random_solution S8 [3]).2 ≠ [3] :=
  ⟨by decide, by decide⟩

/-- Witness for the amended C8 on the spec scenario `S8`. -/
theorem infeasible_raises_after_type_allocation_witness :
    0 < S8.num_rocket_types ∧
    (S8.num_rockets * S8.rocket_capacity <
      ∑ j in Finset.range S8.num_module_types, S8.module_amounts j) ∧
    generate_random_solution S8 [3] =
      (.error "Not enough capacity to carry all modules.",
        (takeDraws S8.num_rockets [3]).2) :=
  ⟨by decide, by decide,
    infeasible_raises_after_type_allocation [3] (by decide) (by decide)⟩

/-! ### Sorting and neighbourhood search -/

theorem costLE_head_le {S : Settings} {pop : List Solution} {b : Solution}
    {tl : List Solution}
    (hs : List.insertionSort (costLE S) pop = b :: tl) :
    ∀ x ∈ pop, calculate_cost b S ≤ calculate_cost x S := by
  intro x hx
  have hperm : List.Perm (List.insertionSort (costLE S) pop) pop :=
    List.perm_insertionSort _ _
  have hx' : x ∈ List.insertionSort (costLE S) pop := hperm.mem_iff.mpr hx
  rw [hs] at hx'
  rcases List.mem_cons.mp hx' with h | h
  · rw [h]
  · have hsorted := List.sorted_insertionSort (costLE S) pop
    rw [hs] at hsorted
    exact List.rel_of_sorted_cons hsorted x h

theorem find_best_neighbour_cost_le {cfg : BeesCfg} {S : Settings}
    {sol : Solution} {k : Nat} {st : List Nat} {s' : Solution}
    {st' : List Nat}
    (h : find_best_neighbour cfg S sol k st = (.ok s', st')) :
    calculate_cost s' S ≤ calculate_cost sol S := by
  rw [find_best_neighbour] at h
  rcases hmc : mutateClones cfg S k sol st with ⟨exc, st1⟩
  cases exc with
  | error e => simp only [hmc] at h; simp at h
  | ok ns =>
    simp only [hmc] at h
    rcases hs : List.insertionSort (costLE S) (ns ++ [sol]) with _ | ⟨b, tl⟩
    · simp only [hs] at h; simp at h
    · simp only [hs] at h
      obtain ⟨h1, h2⟩ := Prod.mk.injEq .. ▸ h
      injection h1 with hb
      subst hb
      exact costLE_head_le hs sol
        (List.mem_append_right ns (List.mem_singleton.mpr rfl))

/-- Claim C4: whenever `__find_best_neighbour` returns, the returned
solution costs no more than the input solution, because the original is
appended to the candidate list before sorting by cost. -/
theorem best_neighbour_never_worse {cfg : BeesCfg} {S : Settings}
    {sol : Solution} {k : Nat} {st : List Nat} {s' : Solution}
    {st' : List Nat}
    (h : find_best_neighbour cfg S sol k st = (.ok s', st')) :
    calculate_cost s' S ≤ calculate_cost sol S :=
  find_best_neighbour_cost_le h

/-- Witness for C4 at a concrete run (one unmutated clone). -/
theorem best_neighbour_never_worse_witness :
    find_best_neighbour cfg2 S0 solType0 1 [] = (.ok solType0, []) ∧
    calculate_cost solType0 S0 ≤ calculate_cost solType0 S0 :=
  ⟨rfl, best_neighbour_never_worse
    (show find_best_neighbour cfg2 S0 solType0 1 [] =
      (Except.ok solType0, ([] : List Nat)) from rfl)⟩

/-! ### Population bookkeeping lemmas -/

theorem minCost_le_of_mem {S : Settings} {x : Solution} :
    ∀ {pop : List Solution}, x ∈ pop →
      minCost S pop ≤ calculate_cost x S := by
  intro pop
  induction pop with
  | nil => intro hx; cases hx
  | cons p ps ih =>
    intro hx
    cases ps with
    | nil =>
      have hxp : x = p := List.mem_singleton.mp hx
      subst hxp
      exact Nat.le_refl _
    | cons q qs =>
      rcases List.mem_cons.mp hx with hh | hh
      · subst hh
        exact Nat.min_le_left _ _
      · exact Nat.le_trans (Nat.min_le_right _ _) (ih hh)

theorem le_minCost {S : Settings} {c : Nat} :
    ∀ {pop : List Solution}, pop ≠ [] →
      (∀ x ∈ pop, c ≤ calculate_cost x S) → c ≤ minCost S pop := by
  intro pop
  induction pop with
  | nil => intro hne; exact absurd rfl hne
  | cons p ps ih =>
    intro _ hall
    cases ps with
    | nil => exact hall p (List.mem_singleton.mpr rfl)
    | cons q qs =>
      rw [minCost]
      exact Nat.le_min.mpr ⟨hall p (List.mem_cons_self p _),
        ih (List.cons_ne_nil q qs)
          fun x hx => hall x (List.mem_cons_of_mem p hx)⟩

theorem exploitSites_get_lt {cfg : BeesCfg} {S : Settings} {size : Nat} :
    ∀ {c i : Nat} {pop : List Solution} {st : List Nat}
      {pop' : List Solution} {st' : List Nat},
      exploitSites cfg S size i c pop st = (.ok pop', st') →
      ∀ j < i, pop'[j]? = pop[j]? := by
  intro c
  induction c with
  | zero =>
    intro i pop st pop' st' h j hj
    rw [exploitSites] at h
    obtain ⟨h1, h2⟩ := Prod.mk.injEq .. ▸ h
    injection h1 with h1
    rw [← h1]
  | succ c ih =>
    intro i pop st pop' st' h j hj
    rw [exploitSites] at h
    rcases hp : pop[i]? with _ | s
    · simp only [hp] at h; simp at h
    · simp only [hp] at h
      rcases hbn : find_best_neighbour cfg S s size st with ⟨exc, st1⟩
      cases exc with
      | error e => simp only [hbn] at h; simp at h
      | ok s' =>
        simp only [hbn] at h
        rw [ih h j (by omega), List.getElem?_set_ne (by omega)]

theorem exploitSites_head {cfg : BeesCfg} {S : Settings} {size c i : Nat}
    {pop : List Solution} {st : List Nat} {pop' : List Solution}
    {st' : List Nat}
    (h : exploitSites cfg S size i (c + 1) pop st = (.ok pop', st')) :
    ∃ s s' stm, pop[i]? = some s ∧
      find_best_neighbour cfg S s size st = (.ok s', stm) ∧
      pop'[i]? = some s' := by
  rw [exploitSites] at h
  rcases hp : pop[i]? with _ | s
  · simp only [hp] at h; simp at h
  · simp only [hp] at h
    rcases hbn : find_best_neighbour cfg S s size st with ⟨exc, st1⟩
    cases exc with
    | error e => simp only [hbn] at h; simp at h
    | ok s' =>
      simp only [hbn] at h
      have hlen : i < pop.length := by
        by_contra hge
        push_neg at hge
        rw [List.getElem?_eq_none hge] at hp
        cases hp
      refine ⟨s, s', st1, rfl, hbn, ?_⟩
      rw [exploitSites_get_lt h i (by omega),
        List.getElem?_set_self hlen]

theorem regenScoutsGo_get_lt {S : Settings} :
    ∀ {c i : Nat} {pop : List Solution} {st : List Nat}
      {pop' : List Solution} {st' : List Nat},
      regenScoutsGo S i c pop st = (.ok pop', st') →
      ∀ j < i, pop'[j]? = pop[j]? := by
  intro c
  induction c with
  | zero =>
    intro i pop st pop' st' h j hj
    rw [regenScoutsGo] at h
    obtain ⟨h1, h2⟩ := Prod.mk.injEq .. ▸ h
    injection h1 with h1
    rw [← h1]
  | succ c ih =>
    intro i pop st pop' st' h j hj
    rw [regenScoutsGo] at h
    rcases hg : generate_random_solution S st with ⟨exc, st1⟩
    cases exc with
    | error e => simp only [hg] at h; simp at h
    | ok s =>
      simp only [hg] at h
      rw [ih h j (by omega), List.getElem?_set_ne (by omega)]

theorem regenScouts_get_lt {S : Settings} {i : Nat} {pop : List Solution}
    {st : List Nat} {pop' : List Solution} {st' : List Nat}
    (h : regenScouts S i pop st = (.ok pop', st')) :
    ∀ j < i, pop'[j]? = pop[j]? := by
  rw [regenScouts] at h
  exact regenScoutsGo_get_lt h

/-! ### Generational monotonicity -/

/-- Claim C3 (amended): whenever a generation (`simulate_population`)
completes and at least one site (elite or normal) is configured, the
minimum cost of the population does not increase.  (With zero sites, every
slot is a scout slot and the minimum can increase; see the
counterexample.) -/
theorem generation_best_cost_nonincreasing {cfg : BeesCfg} {S : Settings}
    {pop : List Solution} {st : List Nat} {pop' : List Solution}
    {st' : List Nat} (hsites : 1 ≤ cfg.elite_sites + cfg.normal_sites)
    (h : simulate_population cfg S pop st = (.ok pop', st')) :
    minCost S pop' ≤ minCost S pop := by
  rw [simulate_population] at h
  rcases hx1 : exploitSites cfg S cfg.elite_site_size 0 cfg.elite_sites
      (List.insertionSort (costLE S) pop) st with ⟨e1, st1⟩
  cases e1 with
  | error e => simp only [hx1] at h; simp at h
  | ok p1 =>
    simp only [hx1] at h
    rcases hx2 : exploitSites cfg S cfg.normal_site_size cfg.elite_sites
        cfg.normal_sites p1 st1 with ⟨e2, st2⟩
    cases e2 with
    | error e => simp only [hx2] at h; simp at h
    | ok p2 =>
      simp only [hx2] at h
      have hkey : ∃ s s', (List.insertionSort (costLE S) pop)[0]? = some s ∧
          calculate_cost s' S ≤ calculate_cost s S ∧ p2[0]? = some s' := by
        cases he : cfg.elite_sites with
        | zero =>
          rw [he, exploitSites] at hx1
          obtain ⟨h1, h2⟩ := Prod.mk.injEq .. ▸ hx1
          injection h1 with h1
          cases hn : cfg.normal_sites with
          | zero => omega
          | succ c =>
            rw [he, hn] at hx2
            rw [← h1] at hx2
            obtain ⟨s, s', stm, hs0, hbn, hp2⟩ := exploitSites_head hx2
            exact ⟨s, s', hs0, find_best_neighbour_cost_le hbn, hp2⟩
        | succ c =>
          rw [he] at hx1
          obtain ⟨s, s', stm, hs0, hbn, hp1⟩ := exploitSites_head hx1
          have hp2 : p2[0]? = p1[0]? :=
            exploitSites_get_lt hx2 0 (by omega)
          exact ⟨s, s', hs0, find_best_neighbour_cost_le hbn,
            hp2.trans hp1⟩
      obtain ⟨s, s', hs0, hle, hp2⟩ := hkey
      have hfinal : pop'[0]? = some s' :=
        (regenScouts_get_lt h 0 (by omega)).trans hp2
      rcases hsort : List.insertionSort (costLE S) pop with _ | ⟨b, tl⟩
      · rw [hsort] at hs0; cases hs0
      · have hb : b = s := by
          rw [hsort] at hs0
          simpa using hs0
        subst hb
        have hne : pop ≠ [] := by
          intro hnil
          rw [hnil] at hsort
          cases hsort
        have hhead := costLE_head_le hsort
        calc minCost S pop' ≤ calculate_cost s' S :=
              minCost_le_of_mem (List.getElem?_mem hfinal)
          _ ≤ calculate_cost b S := hle
          _ ≤ minCost S pop := le_minCost hne hhead

/-- Counterexample to C3 as stated: with zero elite and zero normal sites,
a generation replaces the whole population with fresh random solutions and
the best cost can increase (here from 0 to 10). -/
theorem generation_best_cost_can_increase_without_sites :
    ((simulate_population cfg3 S0 [solType0] [1]).1.toOption.map
      fun p => minCost S0 p) = some 10 ∧
    minCost S0 [solType0] = 0 :=
  ⟨by decide, by decide⟩

/-- Witness for the amended C3 on a concrete completed generation with one
elite site. -/
theorem generation_best_cost_nonincreasing_witness :
    1 ≤ cfg2.elite_sites + cfg2.normal_sites ∧
    minCost S0 [solType0] ≤ minCost S0 [solType0] :=
  ⟨by decide, generation_best_cost_nonincreasing (by decide)
    (show simulate_population cfg2 S0 [solType0] [] =
      (Except.ok [solType0], ([] : List Nat)) from rfl)⟩

/-- Claim C2 (code bug), evaluated at the failing input: a full run of
`find_best_solution` (population 2, one elite site of size 0, one
iteration, stream `[1,1,0]`) returns the solution of cost 10 stored at
index 0, while the final population also contains a scout of cost 0: the
returned individual is not the minimum-cost member of the final
population, because the population is never re-sorted after the last
generation. -/
theorem find_best_solution_returns_nonminimum_at_failing_input :
    ((find_best_solution cfg2 S0 1 [1, 1, 0]).1.toOption.map
      fun r => (calculate_cost r.1 S0, minCost S0 r.2)) = some (10, 0) := by
  decide

/-! ### Mutation operators -/

theorem choice_ok_mem {l : List Nat} (st : List Nat) (hne : l ≠ []) :
    ∃ x, choice l st = (.ok x, (next st).2) ∧ x ∈ l := by
  have hlen : 0 < l.length := List.length_pos.mpr hne
  have hidx : (next st).1 % l.length < l.length := Nat.mod_lt _ hlen
  refine ⟨l.getD ((next st).1 % l.length) 0, ?_, ?_⟩
  · have hni : ¬(l.isEmpty = true) := by simp [hne]
    rw [choice, if_neg hni]
  · rw [List.getD_eq_getElem?_getD, List.getElem?_eq_getElem hidx]
    exact List.getElem_mem hidx

theorem destCandidates_mem {S : Settings} {sol : Solution} {r : Nat}
    (h : r ∈ destCandidates S sol) :
    r < S.num_rockets ∧
    rowSum S sol.module_allocation r < S.rocket_capacity := by
  obtain ⟨h1, h2⟩ := List.mem_filter.mp h
  have h3 : 0 < S.rocket_capacity - rowSum S sol.module_allocation r :=
    of_decide_eq_true h2
  exact ⟨List.mem_range.mp h1, by omega⟩

theorem srcCandidates_mem {S : Settings} {sol : Solution} {mt r : Nat}
    (h : r ∈ srcCandidates S sol mt) :
    r < S.num_rockets ∧ 0 < sol.module_allocation r mt := by
  obtain ⟨h1, h2⟩ := List.mem_filter.mp h
  exact ⟨List.mem_range.mp h1, of_decide_eq_true h2⟩

theorem randintFromOne_ok {m : Nat} (st : List Nat) (hm : 0 < m) :
    ∃ a, randintFromOne m st = (.ok a, (next st).2) ∧ 1 ≤ a ∧ a ≤ m := by
  have hmod : (next st).1 % m < m := Nat.mod_lt _ hm
  exact ⟨1 + (next st).1 % m,
    by rw [randintFromOne, if_neg (by omega)], by omega, by omega⟩

/-- Claim C5: on a feasible solution with at least one eligible destination
rocket (positive remaining capacity) and at least one eligible source
rocket for the randomly drawn module type, the module-transfer mutation
succeeds, leaves every column sum unchanged, and keeps every row sum within
the rocket capacity. -/
theorem module_transfer_preserves_invariants {S : Settings} (sol : Solution)
    (st : List Nat) (hcap : is_valid_capacity sol S = true)
    (hm : 0 < S.num_module_types) (hdest : destCandidates S sol ≠ [])
    (hsrc : srcCandidates S sol ((next st).1 % S.num_module_types) ≠ []) :
    (mutate_modules_allocation S sol st).1 = none ∧
    (∀ j < S.num_module_types,
      colSum S (mutate_modules_allocation S sol st).2.1.module_allocation j =
        colSum S sol.module_allocation j) ∧
    (∀ r < S.num_rockets,
      rowSum S (mutate_modules_allocation S sol st).2.1.module_allocation r ≤
        S.rocket_capacity) := by
  have h1 : randrange S.num_module_types st =
      (.ok ((next st).1 % S.num_module_types), (next st).2) := by
    rw [randrange, if_neg (by omega)]
  have hmtlt : (next st).1 % S.num_module_types < S.num_module_types :=
    Nat.mod_lt _ hm
  obtain ⟨toR, hchoice1, htoRmem⟩ := choice_ok_mem (next st).2 hdest
  obtain ⟨htoRlt, htoRcap⟩ := destCandidates_mem htoRmem
  obtain ⟨fromR, hchoice2, hfromRmem⟩ :=
    choice_ok_mem (next (next st).2).2 hsrc
  obtain ⟨hfromRlt, hfromRpos⟩ := srcCandidates_mem hfromRmem
  have hmaxpos : 0 < min
      (sol.module_allocation fromR ((next st).1 % S.num_module_types))
      (S.rocket_capacity - rowSum S sol.module_allocation toR) := by
    omega
  obtain ⟨amt, hrand, hamt1, hamtle⟩ :=
    randintFromOne_ok (next (next (next st).2).2).2 hmaxpos
  have heq : mutate_modules_allocation S sol st =
      (none, ⟨sol.rocket_type_allocation,
        transfer sol.module_allocation fromR toR
          ((next st).1 % S.num_module_types) amt⟩,
        (next (next (next (next st).2).2).2).2) := by
    simp only [mutate_modules_allocation, h1, hchoice1, hchoice2, hrand]
  rw [heq]
  have hamtA : amt ≤ sol.module_allocation fromR
      ((next st).1 % S.num_module_types) := by omega
  have hamtC : amt ≤ S.rocket_capacity -
      rowSum S sol.module_allocation toR := by omega
  have hcap' := is_valid_capacity_iff.mp hcap
  refine ⟨rfl, fun j _ => colSum_transfer hfromRlt htoRlt hamtA j, ?_⟩
  intro r hr
  by_cases hfr : fromR = toR
  · have hsame : rowSum S (transfer sol.module_allocation fromR toR
        ((next st).1 % S.num_module_types) amt) r =
        rowSum S sol.module_allocation r :=
      Finset.sum_congr rfl fun j' _ => transfer_apply_same hfr hamtA r j'
    rw [hsame]
    exact hcap' r hr
  · by_cases hrt : r = toR
    · subst hrt
      rw [rowSum_transfer_dst hfr hmtlt]
      omega
    · by_cases hrf : r = fromR
      · rw [hrf]
        have hsrc' := rowSum_transfer_src (S := S) hfr hmtlt hamtA
        have hle := hcap' fromR (hrf ▸ hr)
        show rowSum S (transfer sol.module_allocation fromR toR
          ((next st).1 % S.num_module_types) amt) fromR ≤ S.rocket_capacity
        omega
      · rw [rowSum_transfer_other hrf hrt]
        exact hcap' r hr

/-- Witness for C5 at a concrete eligible run. -/
theorem module_transfer_preserves_invariants_witness :
    (is_valid_capacity solOne S5 = true ∧ 0 < S5.num_module_types ∧
      destCandidates S5 solOne ≠ [] ∧
      srcCandidates S5 solOne
        ((next [0, 0, 0, 0]).1 % S5.num_module_types) ≠ []) ∧
    (mutate_modules_allocation S5 solOne [0, 0, 0, 0]).1 = none ∧
    (∀ j < S5.num_module_types,
      colSum S5 (mutate_modules_allocation S5 solOne
          [0, 0, 0, 0]).2.1.module_allocation j =
        colSum S5 solOne.module_allocation j) ∧
    (∀ r < S5.num_rockets,
      rowSum S5 (mutate_modules_allocation S5 solOne
          [0, 0, 0, 0]).2.1.module_allocation r ≤
        S5.rocket_capacity) := by
  refine ⟨⟨by decide, by decide, by decide, by decide⟩, ?_⟩
  exact module_transfer_preserves_invariants solOne [0, 0, 0, 0]
    (by decide) (by decide) (by decide) (by decide)

/-- Claim C10: when no rocket has remaining capacity, or no rocket holds a
unit of the drawn module type, the module-transfer mutation raises (the
result carries an error) and the solution state is exactly the input: the
raise happens inside `random.choice`, before the two allocation writes. -/
theorem module_transfer_infeasible_atomic {S : Settings} (sol : Solution)
    (st : List Nat)
    (h : destCandidates S sol = [] ∨
      srcCandidates S sol ((next st).1 % S.num_module_types) = []) :
    (mutate_modules_allocation S sol st).1.isSome = true ∧
    (mutate_modules_allocation S sol st).2.1 = sol := by
  by_cases hm : S.num_module_types = 0
  · have h1 : randrange S.num_module_types st =
        (.error "empty range for randrange", st) := by
      rw [randrange, if_pos hm]
    have heq : mutate_modules_allocation S sol st =
        (some "empty range for randrange", sol, st) := by
      simp only [mutate_modules_allocation, h1]
    rw [heq]
    exact ⟨rfl, rfl⟩
  · have hmpos : 0 < S.num_module_types := Nat.pos_of_ne_zero hm
    have h1 : randrange S.num_module_types st =
        (.ok ((next st).1 % S.num_module_types), (next st).2) := by
      rw [randrange, if_neg (by omega)]
    by_cases hdest : destCandidates S sol = []
    · have h2 : choice (destCandidates S sol) (next st).2 =
          (.error "Cannot choose from an empty sequence", (next st).2) := by
        rw [choice, if_pos (by simp [hdest])]
      have heq : mutate_modules_allocation S sol st =
          (some "Cannot choose from an empty sequence", sol, (next st).2) := by
        simp only [mutate_modules_allocation, h1, h2]
      rw [heq]
      exact ⟨rfl, rfl⟩
    · have hsrc : srcCandidates S sol
          ((next st).1 % S.num_module_types) = [] := by
        rcases h with h | h
        · exact absurd h hdest
        · exact h
      obtain ⟨toR, hchoice1, _⟩ := choice_ok_mem (next st).2 hdest
      have h3 : choice (srcCandidates S sol
          ((next st).1 % S.num_module_types)) (next (next st).2).2 =
          (.error "Cannot choose from an empty sequence",
            (next (next st).2).2) := by
        rw [choice, if_pos (by simp [hsrc])]
      have heq : mutate_modules_allocation S sol st =
          (some "Cannot choose from an empty sequence", sol,
            (next (next st).2).2) := by
        simp only [mutate_modules_allocation, h1, hchoice1, h3]
      rw [heq]
      exact ⟨rfl, rfl⟩

/-- Witness for C10: the single rocket of `S10` is full, so there is no
eligible destination; the mutation raises and the solution is untouched. -/
theorem module_transfer_infeasible_atomic_witness :
    (destCandidates S10 solOne = [] ∨
      srcCandidates S10 solOne
        ((next [0]).1 % S10.num_module_types) = []) ∧
    (mutate_modules_allocation S10 solOne [0]).1.isSome = true ∧
    (mutate_modules_allocation S10 solOne [0]).2.1 = solOne :=
  ⟨Or.inl (by decide),
    (module_transfer_infeasible_atomic solOne [0] (Or.inl (by decide))).1,
    (module_transfer_infeasible_atomic solOne [0] (Or.inl (by decide))).2⟩

/-- Claim C6: type mutation returns successfully on any solution (given the
positive counts of the data model), leaves the module allocation untouched,
overwrites exactly one entry of the rocket-type allocation with a value in
`[0, numRocketTypes)`, and both structural invariants are preserved. -/
theorem type_mutation_frame {S : Settings} (sol : Solution) (st : List Nat)
    (hn : 0 < S.num_rockets) (ht : 0 < S.num_rocket_types)
    (hcap : is_valid_capacity sol S = true)
    (htot : is_valid_module_total sol S = true) :
    ∃ sol' st2, mutate_rockets_type_allocation S sol st = (.ok sol', st2) ∧
      sol'.module_allocation = sol.module_allocation ∧
      (next st).1 % S.num_rockets < S.num_rockets ∧
      (next (next st).2).1 % S.num_rocket_types < S.num_rocket_types ∧
      sol'.rocket_type_allocation ((next st).1 % S.num_rockets) =
        (next (next st).2).1 % S.num_rocket_types ∧
      (∀ i, i ≠ (next st).1 % S.num_rockets →
        sol'.rocket_type_allocation i = sol.rocket_type_allocation i) ∧
      is_valid_capacity sol' S = true ∧
      is_valid_module_total sol' S = true := by
  have h1 : randrange S.num_rockets st =
      (.ok ((next st).1 % S.num_rockets), (next st).2) := by
    rw [randrange, if_neg (by omega)]
  have h2 : randrange S.num_rocket_types (next st).2 =
      (.ok ((next (next st).2).1 % S.num_rocket_types),
        (next (next st).2).2) := by
    rw [randrange, if_neg (by omega)]
  refine ⟨⟨fun i => if i = (next st).1 % S.num_rockets
      then (next (next st).2).1 % S.num_rocket_types
      else sol.rocket_type_allocation i, sol.module_allocation⟩,
    (next (next st).2).2, ?_, rfl, Nat.mod_lt _ hn, Nat.mod_lt _ ht,
    by simp, fun i hi => by simp [hi], hcap, htot⟩
  simp only [mutate_rockets_type_allocation, h1, h2]

/-- Witness for C6 at a concrete run. -/
theorem type_mutation_frame_witness :
    (0 < S0.num_rockets ∧ 0 < S0.num_rocket_types ∧
      is_valid_capacity solType0 S0 = true ∧
      is_valid_module_total solType0 S0 = true) ∧
    ∃ sol' st2,
      mutate_rockets_type_allocation S0 solType0 [1, 1] = (.ok sol', st2) ∧
      sol'.module_allocation = solType0.module_allocation ∧
      (next [1, 1]).1 % S0.num_rockets < S0.num_rockets ∧
      (next (next [1, 1]).2).1 % S0.num_rocket_types < S0.num_rocket_types ∧
      sol'.rocket_type_allocation ((next [1, 1]).1 % S0.num_rockets) =
        (next (next [1, 1]).2).1 % S0.num_rocket_types ∧
      (∀ i, i ≠ (next [1, 1]).1 % S0.num_rockets →
        sol'.rocket_type_allocation i = solType0.rocket_type_allocation i) ∧
      is_valid_capacity sol' S0 = true ∧
      is_valid_module_total sol' S0 = true :=
  ⟨⟨by decide, by decide, by decide, by decide⟩,
    type_mutation_frame solType0 [1, 1] (by decide) (by decide) (by decide)
      (by decide)⟩

/-! ### Constructor validation -/

/-- Counterexample to C9: constructing the solver with
`eliteSites + normalSites = 10 > 1 = populationSize` succeeds: the
constructor raises nothing. -/
theorem init_accepts_inconsistent_site_counts :
    1 < 5 + 5 ∧
    beesSolverInit 1 0 0 5 5 0 0 =
      .ok ({ population_size := 1, modules_mutations := 0,
             rockets_type_mutations := 0, elite_sites := 5,
             normal_sites := 5, elite_site_size := 0,
             normal_site_size := 0 }, []) :=
  ⟨by decide, rfl⟩

/-- Claim C9 (amended): `BeesSolver.__init__` performs no validation: even
when `eliteSites + normalSites > populationSize` it succeeds, merely
storing its arguments and the empty population; no error is raised at
construction time (the inconsistency only surfaces later, as an index
error inside `simulate_population`). -/
theorem init_never_raises (ps mm tm es ns ess nss : Nat)
    (_h : ps < es + ns) :
    beesSolverInit ps mm tm es ns ess nss =
      .ok ({ population_size := ps, modules_mutations := mm,
             rockets_type_mutations := tm, elite_sites := es,
             normal_sites := ns, elite_site_size := ess,
             normal_site_size := nss }, []) := rfl

/-- Witness for the amended C9. -/
theorem init_never_raises_witness :
    1 < 5 + 5 ∧
    beesSolverInit 1 0 0 5 5 0 0 =
      .ok ({ population_size := 1, modules_mutations := 0,
             rockets_type_mutations := 0, elite_sites := 5,
             normal_sites := 5, elite_site_size := 0,
             normal_site_size := 0 }, []) :=
  ⟨by decide, init_never_raises 1 0 0 5 5 0 0 (by decide)⟩

end RocketBees
